import Mathlib

/-!
Verification of the `ai-data-analyst` repository against its specification.

Strings manipulated character-by-character (the filename sanitizer, the CSV
builder) are modelled as lists of natural-number character codes, so that all
character reasoning is plain arithmetic.  Relational state (the SQL schema)
is modelled as explicit record lists with the declared foreign-key reactions.
Backend components that exist only behind the HTTP API (synthesizer,
retrieval index, chart selector) are modelled from the specification text, as
marked in their doc comments.
-/

namespace AiDataAnalyst

/-! ## Character-code helpers (ASCII) -/

/-- Code of `'-'`. -/
def hyphen : Nat := 45

/-- Code of `'\n'`. -/
def nl : Nat := 10

/-- Code of `','`. -/
def comma : Nat := 44

/-- Code of `'"'`. -/
def dquote : Nat := 34

/-- Is the code a lowercase ASCII letter or digit (the class `[a-z0-9]`)? -/
def isLowerAlnum (c : Nat) : Bool :=
  (97 ≤ c && c ≤ 122) || (48 ≤ c && c ≤ 57)

/-- JavaScript `String.prototype.toLowerCase` restricted to ASCII codes:
uppercase letters are shifted down by 32, other codes are unchanged. -/
def lowerCode (c : Nat) : Nat :=
  if 65 ≤ c && c ≤ 90 then c + 32 else c

/-! ## `sanitizeFilename` (src/frontend/utils/downloadUtils.ts) -/

/-- State-passing core of the regex replacement `[^a-z0-9]+` → `"-"`:
the boolean records whether we are inside a run of non-alphanumeric
characters (whose single replacement hyphen was already emitted). -/
def collapseAux : Bool → List Nat → List Nat
  | _, [] => []
  | inRun, c :: cs =>
    if isLowerAlnum c then c :: collapseAux false cs
    else if inRun then collapseAux true cs
    else hyphen :: collapseAux true cs

/-- Replace every maximal run of characters outside `[a-z0-9]` by one hyphen
(JavaScript `replace(/[^a-z0-9]+/g, '-')`). -/
def collapseRuns (l : List Nat) : List Nat := collapseAux false l

/-- Remove a trailing run of hyphens (the `-+$` half of
`replace(/^-+|-+$/g, '')`). -/
def rstripHyphen : List Nat → List Nat
  | [] => []
  | c :: cs =>
    match rstripHyphen cs with
    | [] => if c = hyphen then [] else [c]
    | r => c :: r

/-- Remove a leading run of hyphens and a trailing run of hyphens
(JavaScript `replace(/^-+|-+$/g, '')`). -/
def stripHyphens (l : List Nat) : List Nat :=
  rstripHyphen (l.dropWhile (fun c => c = hyphen))

/-- `sanitizeFilename` from `src/frontend/utils/downloadUtils.ts`:
lower-case, collapse each run of non-`[a-z0-9]` characters to one hyphen,
strip leading and trailing hyphens, then truncate to the first 50
characters (`substring(0, 50)`). -/
def sanitizeFilename (text : List Nat) : List Nat :=
  ((stripHyphens (collapseRuns (text.map lowerCode)))).take 50

/-! ## `downloadAsCSV` (src/frontend/utils/downloadUtils.ts)

Only the CSV text construction is modelled; the surrounding Blob / DOM
plumbing is presentation-only. -/

/-- A JavaScript cell value as `downloadAsCSV` sees it: a string (subject to
escaping) or a number (passed through as its textual form). -/
inductive CellValue
  | str (s : List Nat)
  | num (n : Int)
deriving DecidableEq

/-- Decimal digit codes of a natural number, most significant first
(fuel-indexed for structural termination; the fuel `n + 1` always
suffices). -/
def natDigitsAux : Nat → Nat → List Nat
  | 0, _ => []
  | fuel + 1, n =>
    if n < 10 then [48 + n] else natDigitsAux fuel (n / 10) ++ [48 + n % 10]

/-- Decimal digit codes of a natural number. -/
def natDigits (n : Nat) : List Nat := natDigitsAux (n + 1) n

/-- Textual form of an integer cell, as JavaScript `join` stringifies it. -/
def renderInt (n : Int) : List Nat :=
  if n < 0 then hyphen :: natDigits n.natAbs else natDigits n.toNat

/-- `value.replace(/"/g, String.fromCharCode(34, 34))`: double every
double-quote character. -/
def escapeQuotes : List Nat → List Nat
  | [] => []
  | c :: cs =>
    if c = dquote then dquote :: dquote :: escapeQuotes cs
    else c :: escapeQuotes cs

/-- One CSV cell: a string value containing a comma or a double quote is
wrapped in double quotes with embedded quotes doubled; every other value
passes through as its textual form. -/
def csvCell : CellValue → List Nat
  | .str s =>
    if comma ∈ s ∨ dquote ∈ s then dquote :: (escapeQuotes s ++ [dquote])
    else s
  | .num n => renderInt n

/-- One rendered data row: each listed column's cell, joined by commas
(`columns.map(...).join(',')`). -/
def csvLine (columns : List (List Nat)) (row : List Nat → CellValue) : List Nat :=
  [comma].intercalate (columns.map (fun col => csvCell (row col)))

/-- The CSV text of `downloadAsCSV`: the header line (`columns.join(',')`)
followed by the rendered rows, all joined by newlines. -/
def downloadAsCSV (data : List (List Nat → CellValue)) (columns : List (List Nat)) :
    List Nat :=
  [nl].intercalate (([comma].intercalate columns) :: data.map (csvLine columns))

/-! ## Relational schema (src/backend/schema.sql) -/

/-- The columns of the `rag_indices` table exactly as declared in
`src/backend/schema.sql`; its only foreign key is `user_id REFERENCES
users(id) ON DELETE CASCADE`. -/
def ragIndicesColumns : List String :=
  ["id", "user_id", "index_type", "document_count", "created_at", "updated_at"]

/-- A row of `datasets` (key and foreign-key fields). -/
structure DatasetRow where
  id : Nat
  name : String
  table_name : String
  owner_id : Nat
deriving DecidableEq

/-- A row of `chat_sessions`; `dataset_id` is nullable because its foreign
key is declared `ON DELETE SET NULL`. -/
structure ChatSessionRow where
  id : Nat
  user_id : Nat
  dataset_id : Option Nat
deriving DecidableEq

/-- A row of `rag_indices`: keyed by `user_id`; the table has no
`dataset_id` column. -/
structure RagIndexRow where
  id : Nat
  user_id : Nat
  index_type : String
  document_count : Nat
deriving DecidableEq

/-- The persisted relational state declared by `schema.sql`. -/
structure DBState where
  users : List Nat
  datasets : List DatasetRow
  chat_sessions : List ChatSessionRow
  rag_indices : List RagIndexRow
deriving DecidableEq

/-- Deleting a `datasets` row, with exactly the reactions `schema.sql`
declares: `chat_sessions.dataset_id` is set to null (`ON DELETE SET NULL`);
no other table references `datasets`, so `rag_indices` is untouched. -/
def deleteDataset (d : Nat) (st : DBState) : DBState :=
  { st with
    datasets := st.datasets.filter (fun r => r.id ≠ d)
    chat_sessions := st.chat_sessions.map (fun s =>
      if s.dataset_id = some d then { s with dataset_id := none } else s) }

/-- Deleting a `users` row: `datasets`, `chat_sessions` and `rag_indices`
all cascade (`ON DELETE CASCADE`), with the sessions of the user's deleted
datasets already removed by the user-id cascade. -/
def deleteUser (u : Nat) (st : DBState) : DBState :=
  { st with
    users := st.users.filter (fun x => x ≠ u)
    datasets := st.datasets.filter (fun r => r.owner_id ≠ u)
    chat_sessions := st.chat_sessions.filter (fun s => s.user_id ≠ u)
    rag_indices := st.rag_indices.filter (fun r => r.user_id ≠ u) }

/-! ## KPI cards (src/frontend/components/KPICards.tsx, src/frontend/services/api.ts) -/

/-- The `KPICard` payload shape from `src/frontend/services/api.ts`. -/
structure KPICard where
  title : String
  value : String
  change : Option String
  trend : Option String
  icon : Option String
deriving DecidableEq

/-- The lucide icon components the presentation layer can render for a KPI
(`KPICards.tsx` imports exactly these). -/
inductive Icon
  | database
  | dollarSign
  | hash
  | users
  | tag
  | trendingUp
deriving DecidableEq

/-- `getIcon` from `src/frontend/components/KPICards.tsx`: the switch over
the KPI's `icon` tag, with `Database` as the default branch. -/
def getIcon (iconName : Option String) : Icon :=
  if iconName = some ("database") then .database
  else if iconName = some ("dollar-sign") then .dollarSign
  else if iconName = some ("hash") then .hash
  else if iconName = some ("users") then .users
  else if iconName = some ("tag") then .tag
  else if iconName = some ("trending-up") then .trendingUp
  else .database

/-- The icon tags the presentation layer's switch explicitly recognizes
(every other tag falls to the default branch). -/
def recognizedIconNames : List String :=
  ["database", "dollar-sign", "hash", "users", "tag", "trending-up"]

/-- The fixed display-icon vocabulary named by the specification (§4.4). -/
def kpiIconVocabulary : List String :=
  ["count", "currency", "percentage", "trend"]

/-- Modelled from the spec: the KPI extraction of the backend Chart & KPI
Selector (`chart_agent.py` is not in the repository snapshot).  For each
numeric column it computes count, sum, mean, and a percent-change entry
when a prior comparable value is supplied; each KPI carries a display-icon
tag drawn from the fixed vocabulary. -/
def extractKpis (prior : Option Int) (colName : String) (values : List Int) :
    List KPICard :=
  let total := values.sum
  let cnt : KPICard :=
    ⟨colName ++ (" count"), toString values.length, none, none, some ("count")⟩
  let sm : KPICard :=
    ⟨colName ++ (" sum"), toString total, none, none, some ("currency")⟩
  let mean : KPICard :=
    ⟨colName ++ (" mean"),
      toString (if values.length = 0 then 0 else total / (values.length : Int)),
      none, none, some ("percentage")⟩
  match prior with
  | none => [cnt, sm, mean]
  | some p =>
    [cnt, sm, mean,
      ⟨colName ++ (" change"), toString (total - p), some (toString (total - p)),
        some (if p ≤ total then ("up") else ("down")), some ("trend")⟩]

/-! ## Chart selection (modelled from the spec, §4.4) -/

/-- Inferred column kind used by the chart rule table. -/
inductive ColType
  | categorical
  | numeric
  | temporal
deriving DecidableEq

/-- A result-set column with its inferred type, categorical cardinality and
whether its categories are ordered/sequential. -/
structure ColInfo where
  name : String
  ctype : ColType
  distinctCount : Nat
  ordered : Bool
deriving DecidableEq

/-- The visualizations the Selector can choose (`table` means no chart). -/
inductive ChartType
  | bar
  | pie
  | line
  | scatter
  | table
deriving DecidableEq

/-- Modelled from the spec: the deterministic rule table of the backend
Chart & KPI Selector (`chart_agent.py` is not in the repository snapshot):
one categorical + one numeric with ≤ 12 distinct categories → bar when
ordered, else pie when ≤ 8 distinct values, else bar; one temporal + one
numeric → line; two numeric → scatter; anything else → table. -/
def chooseChart : List ColInfo → ChartType
  | [a, b] =>
    match a.ctype, b.ctype with
    | .categorical, .numeric =>
      if a.distinctCount ≤ 12 then
        if a.ordered then .bar
        else if a.distinctCount ≤ 8 then .pie
        else .bar
      else .table
    | .temporal, .numeric => .line
    | .numeric, .numeric => .scatter
    | _, _ => .table
  | _ => .table

/-! ## Hybrid Retrieval Index (modelled from the spec, §4.3) -/

/-- A per-row indexed document: its original row id, tokenized text for the
lexical sub-index, and its embedding for the dense sub-index (`none` when
the per-row embedding failed, which excludes the row from the vector
sub-index only). -/
structure IndexedDoc where
  rowId : Nat
  tokens : List String
  embedding : Option (List Int)
deriving DecidableEq

/-- One immutable index generation: the indexed documents plus the
persisted `document_count` and the generation id, all swapped together. -/
structure IndexGeneration where
  docs : List IndexedDoc
  document_count : Nat
  generation : Nat
deriving DecidableEq

/-- The empty initial generation. -/
def initialIndex : IndexGeneration := ⟨[], 0, 0⟩

/-- Modelled from the spec: a rebuild (triggered by dataset
creation/mutation; `rag.py` is not in the repository snapshot) recomputes
the documents and atomically swaps to a new generation, updating
`document_count` together with the swap. -/
def rebuildIndex (corpus : List IndexedDoc) (g : IndexGeneration) : IndexGeneration :=
  ⟨corpus, corpus.length, g.generation + 1⟩

/-- Generations reachable from the initial index by rebuilds; a reader only
ever observes one of these (copy-on-write swap). -/
inductive IndexReachable : IndexGeneration → Prop
  | init : IndexReachable initialIndex
  | rebuild (corpus : List IndexedDoc) {g : IndexGeneration} :
      IndexReachable g → IndexReachable (rebuildIndex corpus g)

/-- Configurable fusion parameters: lexical weight, vector weight, top-K. -/
structure FusionConfig where
  wLex : Int
  wVec : Int
  topK : Nat
deriving DecidableEq

/-- A retrieval query: its tokens and its embedding. -/
structure RetrievalQuery where
  tokens : List String
  embedding : List Int
deriving DecidableEq

/-- Term-frequency lexical score of a document for a query. -/
def lexScore (q : RetrievalQuery) (d : IndexedDoc) : Int :=
  ((q.tokens.map (fun t => d.tokens.count t)).sum : Nat)

/-- Integer dot product. -/
def dotProd : List Int → List Int → Int
  | a :: as, b :: bs => a * b + dotProd as bs
  | _, _ => 0

/-- Dense (embedding) score; a document excluded from the vector sub-index
scores zero there. -/
def vecScore (q : RetrievalQuery) (d : IndexedDoc) : Int :=
  match d.embedding with
  | none => 0
  | some e => dotProd q.embedding e

/-- Normalize a sub-score by its corpus-wide maximum onto the common
0–1000 fixed-point range. -/
def normalizeScore (x mx : Int) : Int := if mx = 0 then 0 else x * 1000 / mx

/-- A fused result: the document with both normalized sub-scores (kept for
explainability) and the fused score. -/
structure ScoredDoc where
  doc : IndexedDoc
  lex : Int
  vec : Int
  fused : Int
deriving DecidableEq

/-- Ranking order used to sort fused results: higher fused score first,
ties broken by ascending original row id. -/
def rankLe (a b : ScoredDoc) : Bool :=
  b.fused < a.fused || (a.fused = b.fused && a.doc.rowId ≤ b.doc.rowId)

/-- The ranking order as a decidable relation. -/
def rankRel (a b : ScoredDoc) : Prop := rankLe a b = true

instance : DecidableRel rankRel := fun a b =>
  inferInstanceAs (Decidable (rankLe a b = true))

/-- Score every document of a generation under both sub-indices, normalize
each sub-score by its corpus-wide maximum, and fuse via the weighted linear
combination. -/
def scoreDocs (cfg : FusionConfig) (q : RetrievalQuery) (g : IndexGeneration) :
    List ScoredDoc :=
  let mL := (g.docs.map (lexScore q)).foldr Max.max 0
  let mV := (g.docs.map (vecScore q)).foldr Max.max 0
  g.docs.map (fun d =>
    let nL := normalizeScore (lexScore q d) mL
    let nV := normalizeScore (vecScore q d) mV
    ⟨d, nL, nV, cfg.wLex * nL + cfg.wVec * nV⟩)

/-- Modelled from the spec: the query path of the Hybrid Retrieval Index
(`rag.py` is not in the repository snapshot).  Score and fuse every
document, sort deterministically (fused score descending, ties by ascending
row id) and return the top-K. -/
def queryIndex (cfg : FusionConfig) (q : RetrievalQuery) (g : IndexGeneration) :
    List ScoredDoc :=
  ((scoreDocs cfg q g).insertionSort rankRel).take cfg.topK

/-! ## Safe Query Synthesizer & Executor (modelled from the spec, §4.2) -/

/-- The error taxonomy of §7. -/
inductive QueryError
  | SchemaMismatch
  | AmbiguousColumn
  | UnsafeQueryRejected
  | QueryTimeout
  | IndexUnavailable
  | UpstreamUnavailable
  | Unauthorized
deriving DecidableEq

/-- A typed cell value of an executed row. -/
inductive Value
  | int (n : Int)
  | str (s : String)
deriving DecidableEq

/-- A typed row: column name / value pairs. -/
def Row : Type := List (String × Value)

instance : DecidableEq Row := by
  unfold Row
  infer_instance

/-- The aggregation functions of §4.2 (`noAgg` is the "none" case). -/
inductive AggFunc
  | count
  | sum
  | avg
  | min
  | max
  | noAgg
deriving DecidableEq

/-- Filter predicates of §4.2: equality, range, containment. -/
inductive FilterPred
  | eq (col : String) (v : Value)
  | range (col : String) (lo hi : Int)
  | containsText (col : String) (needle : String)
deriving DecidableEq

/-- The column a filter references. -/
def filterColumn : FilterPred → String
  | .eq c _ => c
  | .range c _ _ => c
  | .containsText c _ => c

/-- Rewrite a filter to reference a (resolved) column. -/
def setFilterColumn : FilterPred → String → FilterPred
  | .eq _ v, c => .eq c v
  | .range _ lo hi, c => .range c lo hi
  | .containsText _ s, c => .containsText c s

/-- The ephemeral Query Plan of §3: target table, selected columns,
aggregation, group-by columns, filters, sort. -/
structure QueryPlan where
  table : String
  selectCols : List String
  agg : AggFunc
  aggCol : Option String
  groupBy : List String
  filters : List FilterPred
  sortBy : Option String
  sortAsc : Bool
deriving DecidableEq

/-- Every column name a plan references. -/
def referencedColumnNames (p : QueryPlan) : List String :=
  p.selectCols ++ p.groupBy ++ p.aggCol.toList ++
    p.filters.map filterColumn ++ p.sortBy.toList

/-- Length of the longest common prefix of two character lists. -/
def lcpLen : List Char → List Char → Nat
  | a :: as, b :: bs => if a = b then 1 + lcpLen as bs else 0
  | _, _ => 0

/-- ASCII case folding of one character. -/
def charLower (c : Char) : Char :=
  if 65 ≤ c.toNat && c.toNat ≤ 90 then Char.ofNat (c.toNat + 32) else c

/-- ASCII case folding of a string. -/
def lowerStr (s : String) : String := ⟨s.data.map charLower⟩

/-- Modelled from the spec: the fixed string-similarity measure used to
resolve partial column names (the Synthesizer source is not in the
repository snapshot) — the case-folded common-prefix ratio, on the common
0–1000 fixed-point range. -/
def similarity (a b : String) : Int :=
  let la := (lowerStr a).data
  let lb := (lowerStr b).data
  if la.length + lb.length = 0 then 0
  else (2000 * (lcpLen la lb : Int)) / ((la.length : Int) + (lb.length : Int))

/-- The fixed resolution threshold of §4.2 (0.8 on the fixed-point
range). -/
def simThreshold : Int := 800

/-- Modelled from the spec: column-reference resolution of §4.2 — exact
case-insensitive match first; otherwise the candidate with highest
similarity above the fixed threshold; otherwise `AmbiguousColumn` when
partially similar candidates exist, `SchemaMismatch` for an unknown
column. -/
def resolveColumn (schema : List String) (name : String) : Except QueryError String :=
  match schema.find? (fun c => lowerStr c = lowerStr name) with
  | some c => .ok c
  | none =>
    match schema.argmax (fun c => similarity name c) with
    | none => .error .SchemaMismatch
    | some best =>
      if simThreshold ≤ similarity name best then .ok best
      else if 0 < similarity name best then .error .AmbiguousColumn
      else .error .SchemaMismatch

/-- Resolve every name of a list, failing on the first unresolvable one. -/
def resolveAll (schema : List String) : List String → Except QueryError (List String)
  | [] => .ok []
  | n :: ns =>
    match resolveColumn schema n, resolveAll schema ns with
    | .ok c, .ok cs => .ok (c :: cs)
    | .error e, _ => .error e
    | .ok _, .error e => .error e

/-- Resolve an optional column reference. -/
def resolveOpt (schema : List String) : Option String → Except QueryError (Option String)
  | none => .ok none
  | some n =>
    match resolveColumn schema n with
    | .ok c => .ok (some c)
    | .error e => .error e

/-- Resolve the column of every filter. -/
def resolveFilters (schema : List String) :
    List FilterPred → Except QueryError (List FilterPred)
  | [] => .ok []
  | f :: fs =>
    match resolveColumn schema (filterColumn f), resolveFilters schema fs with
    | .ok c, .ok rest => .ok (setFilterColumn f c :: rest)
    | .error e, _ => .error e
    | .ok _, .error e => .error e

/-- Modelled from the spec: plan validation of §4.2.  A plan addressing any
table other than the one bound to the requesting dataset violates the
safety contract (`UnsafeQueryRejected`); every column reference is resolved
against `schema_info` or the plan is rejected before execution. -/
def validatePlan (boundTable : String) (schema : List String) (p : QueryPlan) :
    Except QueryError QueryPlan :=
  if p.table ≠ boundTable then .error .UnsafeQueryRejected
  else
    match resolveAll schema p.selectCols with
    | .error e => .error e
    | .ok sel =>
      match resolveAll schema p.groupBy with
      | .error e => .error e
      | .ok gb =>
        match resolveOpt schema p.aggCol with
        | .error e => .error e
        | .ok ac =>
          match resolveFilters schema p.filters with
          | .error e => .error e
          | .ok fs =>
            match resolveOpt schema p.sortBy with
            | .error e => .error e
            | .ok sb =>
              .ok { p with selectCols := sel, groupBy := gb, aggCol := ac,
                           filters := fs, sortBy := sb }

/-- Value of a row at a column. -/
def rowValue (r : Row) (c : String) : Option Value :=
  (r.find? (fun p => p.1 = c)).map (fun p => p.2)

/-- Does one character list occur as a prefix of another? -/
def listStartsWith : List Char → List Char → Bool
  | [], _ => true
  | _ :: _, [] => false
  | a :: as, b :: bs => a = b && listStartsWith as bs

/-- Does the needle occur contiguously inside the haystack? -/
def listContainsSub (needle : List Char) : List Char → Bool
  | [] => needle.isEmpty
  | c :: cs => listStartsWith needle (c :: cs) || listContainsSub needle cs

/-- Evaluate one filter predicate on a row. -/
def evalFilter (r : Row) : FilterPred → Bool
  | .eq c v => rowValue r c = some v
  | .range c lo hi =>
    match rowValue r c with
    | some (.int n) => lo ≤ n && n ≤ hi
    | _ => false
  | .containsText c s =>
    match rowValue r c with
    | some (.str t) => listContainsSub s.data t.data
    | _ => false

/-- Group key of a row for a group-by column list. -/
def keyOf (cols : List String) (r : Row) : List (Option Value) :=
  cols.map (rowValue r)

/-- The numeric values of a group at the aggregated column. -/
def intValues (aggCol : Option String) (grp : List Row) : List Int :=
  match aggCol with
  | none => []
  | some c => grp.filterMap (fun r =>
      match rowValue r c with
      | some (.int n) => some n
      | _ => none)

/-- Apply an aggregation function to a group. -/
def aggResult (f : AggFunc) (aggCol : Option String) (grp : List Row) : Int :=
  let vs := intValues aggCol grp
  match f with
  | .count => grp.length
  | .sum => vs.sum
  | .avg => if vs.length = 0 then 0 else vs.sum / (vs.length : Int)
  | .min => vs.foldr Min.min (vs.head?.getD 0)
  | .max => vs.foldr Max.max (vs.head?.getD 0)
  | .noAgg => 0

/-- Projection of a row onto the selected columns. -/
def projectRow (cols : List String) (r : Row) : Row :=
  cols.map (fun c => (c, (rowValue r c).getD (Value.str (""))))

/-- Insert into a list sorted by a boolean comparison. -/
def insertSorted (le : Row → Row → Bool) (a : Row) : List Row → List Row
  | [] => [a]
  | b :: bs => if le a b then a :: b :: bs else b :: insertSorted le a bs

/-- Insertion sort of rows by a boolean comparison. -/
def sortRows (le : Row → Row → Bool) : List Row → List Row
  | [] => []
  | a :: as => insertSorted le a (sortRows le as)

/-- Total comparison used for the plan's sort order. -/
def valueLe : Option Value → Option Value → Bool
  | none, _ => true
  | some _, none => false
  | some (.int a), some (.int b) => a ≤ b
  | some (.int _), some (.str _) => true
  | some (.str _), some (.int _) => false
  | some (.str a), some (.str b) => a ≤ b

/-- Modelled from the spec: execution of a validated plan — apply the
filters, group and aggregate when requested, sort, and truncate to the hard
result-row cap. -/
def executePlan (cap : Nat) (rows : List Row) (p : QueryPlan) : List Row :=
  let flt := rows.filter (fun r => p.filters.all (fun f => evalFilter r f))
  let base :=
    if p.groupBy.isEmpty && p.agg = AggFunc.noAgg then
      flt.map (projectRow p.selectCols)
    else
      ((flt.map (keyOf p.groupBy)).dedup).map (fun k =>
        let grp := flt.filter (fun r => keyOf p.groupBy r = k)
        (p.groupBy.zip k).map (fun ck => (ck.1, ck.2.getD (Value.str ("")))) ++
          [(("agg_value"), Value.int (aggResult p.agg p.aggCol grp))])
  let sorted :=
    match p.sortBy with
    | none => base
    | some c =>
      let s := sortRows (fun a b => valueLe (rowValue a c) (rowValue b c)) base
      if p.sortAsc then s else s.reverse
  sorted.take cap

/-! ## Request handling (modelled from the spec, §4.1, §6, §7) -/

/-- Dataset metadata consumed from the Dataset Management collaborator:
id, owner, opaque table identifier, schema columns. -/
structure DatasetMeta where
  id : Nat
  owner_id : Nat
  table_name : String
  schemaColumns : List String
deriving DecidableEq

/-- A lightly persisted chat turn (§3). -/
structure ChatTurn where
  role : String
  content : String
  chart : Option ChartType
  kpis : List KPICard
deriving DecidableEq

/-- The engine-visible system state: dataset metadata, the per-dataset
physical tables, and recorded chat turns. -/
structure AppState where
  datasets : List DatasetMeta
  tables : List (String × List Row)
  turns : List ChatTurn
deriving DecidableEq

/-- Rows of a physical table (empty when absent). -/
def lookupTable (st : AppState) (t : String) : List Row :=
  ((st.tables.find? (fun p => p.1 = t)).map (fun p => p.2)).getD []

/-- Modelled from the spec: one structured chat turn — validate the
untrusted draft plan first; a validation failure is returned before any
execution step, touching nothing; a validated plan is executed and the
turn is recorded. -/
def handleStructuredTurn (cap : Nat) (ds : DatasetMeta) (draft : QueryPlan)
    (st : AppState) : AppState × Except QueryError (List Row) :=
  match validatePlan ds.table_name ds.schemaColumns draft with
  | .error e => (st, .error e)
  | .ok q =>
    let out := executePlan cap (lookupTable st ds.table_name) q
    ({ st with turns := st.turns ++ [⟨("assistant"), ("structured result"), none, []⟩] },
      .ok out)

/-- A request with its verified authenticated identity. -/
structure EngineRequest where
  userId : Nat
  datasetId : Nat
  draft : QueryPlan
deriving DecidableEq

/-- Modelled from the spec: request entry point (§6) — every operation is
rejected with `Unauthorized` when the verified identity does not match the
dataset's owner (a missing dataset is likewise unauthorized, since
ownership cannot be established). -/
def handleRequest (cap : Nat) (req : EngineRequest) (st : AppState) :
    AppState × Except QueryError (List Row) :=
  match st.datasets.find? (fun d => d.id = req.datasetId) with
  | none => (st, .error .Unauthorized)
  | some ds =>
    if ds.owner_id ≠ req.userId then (st, .error .Unauthorized)
    else handleStructuredTurn cap ds req.draft st

/-- The result rows carried by a response (an error carries none). -/
def rowsOf : Except QueryError (List Row) → List Row
  | .ok rs => rs
  | .error _ => []

/-- Modelled from the spec: the Synthesizer & Executor pipeline — validate
the structured plan, then execute it under the hard row cap. -/
def runStructuredQuery (cap : Nat) (ds : DatasetMeta) (rows : List Row)
    (draft : QueryPlan) : Except QueryError (List Row) :=
  match validatePlan ds.table_name ds.schemaColumns draft with
  | .error e => .error e
  | .ok q => .ok (executePlan cap rows q)

/-! ## Theorems -/

/-- A database state with one user owning one dataset whose five rows are
indexed; the rag metadata row is keyed (as the schema dictates) by the
user. -/
def sampleDB : DBState :=
  { users := [1]
    datasets := [⟨7, ("sales"), ("tbl_7"), 1⟩]
    chat_sessions := [⟨3, 1, some 7⟩]
    rag_indices := [⟨1, 1, ("hybrid"), 5⟩] }

/-- C3 counterexample: `rag_indices` carries no `dataset_id` column — its
only reference is `user_id` — so the index metadata record is not keyed per
dataset and the claimed per-dataset `document_count` is not what the record
identifies. -/
theorem ragIndices_not_dataset_keyed :
    (("dataset_id") ∉ ragIndicesColumns) ∧ (("user_id") ∈ ragIndicesColumns) := by
  decide

/-- C3 (amended): every reachable index generation carries a
`document_count` equal to the number of rows it indexes (the count and the
postings are swapped together), and the persisted metadata record is keyed
by `user_id`, not per dataset. -/
theorem indexReachable_document_count :
    (∀ g : IndexGeneration, IndexReachable g → g.document_count = g.docs.length) ∧
    (("user_id") ∈ ragIndicesColumns) ∧ (("dataset_id") ∉ ragIndicesColumns) := by
  refine ⟨?_, by decide, by decide⟩
  intro g h
  induction h with
  | init => rfl
  | rebuild corpus _ _ => rfl

/-- C3 witness: the invariant instantiated at a concretely rebuilt
generation. -/
theorem indexReachable_document_count_witness :
    (rebuildIndex [⟨0, [("alpha")], none⟩] initialIndex).document_count =
      (rebuildIndex [⟨0, [("alpha")], none⟩] initialIndex).docs.length :=
  indexReachable_document_count.1 _
    (IndexReachable.rebuild _ IndexReachable.init)

/-- C4 counterexample: deleting dataset 7 leaves the rag index metadata row
(tracking the five indexed rows of its owner's corpus) in place, because
`rag_indices` has no foreign key to `datasets`. -/
theorem deleteDataset_keeps_rag_metadata :
    (deleteDataset 7 sampleDB).rag_indices = [⟨1, 1, ("hybrid"), 5⟩] ∧
    (deleteDataset 7 sampleDB).rag_indices ≠ [] := by
  exact ⟨rfl, by decide⟩

/-- C4 (amended): deleting a dataset removes its `datasets` row and nulls
the chat-session references to it, but leaves `rag_indices` untouched;
index metadata rows are cascaded only by deleting their user. -/
theorem deleteDataset_cascade_shape :
    ∀ (st : DBState) (d u : Nat),
      (∀ r ∈ (deleteDataset d st).datasets, r.id ≠ d) ∧
      (∀ s ∈ (deleteDataset d st).chat_sessions, s.dataset_id ≠ some d) ∧
      (deleteDataset d st).rag_indices = st.rag_indices ∧
      (∀ r ∈ (deleteUser u st).rag_indices, r.user_id ≠ u) := by
  intro st d u
  refine ⟨?_, ?_, rfl, ?_⟩
  · intro r hr
    have := List.mem_filter.mp hr
    simpa using this.2
  · intro s hs
    rcases List.mem_map.mp hs with ⟨s0, _, rfl⟩
    by_cases h : s0.dataset_id = some d
    · simp [h]
    · simp [h]
  · intro r hr
    have := List.mem_filter.mp hr
    simpa using this.2

/-- C4 witness: the amended statement instantiated on the sample state —
the surviving chat session of the deleted dataset no longer references
it. -/
theorem deleteDataset_cascade_shape_witness :
    (⟨3, 1, none⟩ : ChatSessionRow).dataset_id ≠ some 7 :=
  (deleteDataset_cascade_shape sampleDB 7 1).2.1 ⟨3, 1, none⟩ (by decide)

/-- The Scenario-1 categorical column: vendor, 4 distinct unordered
values. -/
def vendorCol : ColInfo := ⟨("vendor"), .categorical, 4, false⟩

/-- The Scenario-1 numeric column: summed price. -/
def priceCol : ColInfo := ⟨("price"), .numeric, 0, false⟩

/-- C5: for one categorical column with at most 12 distinct values paired
with one numeric column, the Selector picks bar when the categories are
ordered, otherwise pie when at most 8 distinct values, otherwise bar. -/
theorem chooseChart_cat_num (c n : ColInfo) (hc : c.ctype = ColType.categorical)
    (hn : n.ctype = ColType.numeric) (hcard : c.distinctCount ≤ 12) :
    chooseChart [c, n] =
      if c.ordered then ChartType.bar
      else if c.distinctCount ≤ 8 then ChartType.pie
      else ChartType.bar := by
  obtain ⟨cname, ct, cd, co⟩ := c
  obtain ⟨nname, nt, nd, no1⟩ := n
  simp only at hc hn hcard
  subst hc hn
  simp [chooseChart, hcard]

/-- C5 witness: Scenario 1 — a 4-value unordered categorical grouped with a
numeric sum yields a pie chart. -/
theorem chooseChart_cat_num_witness :
    vendorCol.ctype = ColType.categorical ∧ priceCol.ctype = ColType.numeric ∧
    vendorCol.distinctCount ≤ 12 ∧ chooseChart [vendorCol, priceCol] = ChartType.pie := by
  refine ⟨rfl, rfl, by decide, ?_⟩
  have h := chooseChart_cat_num vendorCol priceCol rfl rfl (by decide)
  simpa [vendorCol] using h

/-- C6 counterexample: the icon tag `database` is consumed (explicitly
recognized) by the presentation layer yet lies outside the specification's
vocabulary {count, currency, percentage, trend}; conversely, tags of that
vocabulary are not recognized and fall to the default branch. -/
theorem consumedIcon_outside_vocabulary :
    (("database") ∈ recognizedIconNames) ∧ (("database") ∉ kpiIconVocabulary) ∧
    getIcon (some ("count")) = Icon.database ∧
    getIcon (some ("currency")) = Icon.database := by
  decide

/-- C6 (amended): every KPI the (spec-modelled) Selector emits carries a
tag from the fixed vocabulary {count, currency, percentage, trend}, but the
presentation layer recognizes only {database, dollar-sign, hash, users,
tag, trending-up}: every emitted tag falls to the default database icon,
and any tag rendered otherwise is one of the recognized six. -/
theorem kpiIcon_vocabularies :
    (∀ (prior : Option Int) (colName : String) (values : List Int),
        ∀ k ∈ extractKpis prior colName values,
          ∃ t, k.icon = some t ∧ t ∈ kpiIconVocabulary) ∧
    (∀ t ∈ kpiIconVocabulary, getIcon (some t) = Icon.database) ∧
    (∀ s : String, getIcon (some s) ≠ Icon.database → s ∈ recognizedIconNames) := by
  refine ⟨?_, ?_, ?_⟩
  · intro prior colName values k hk
    cases prior with
    | none =>
      simp [extractKpis] at hk
      rcases hk with h | h | h <;> subst h <;> exact ⟨_, rfl, by decide⟩
    | some p =>
      simp [extractKpis] at hk
      rcases hk with h | h | h | h <;> subst h <;> exact ⟨_, rfl, by decide⟩
  · intro t ht
    simp [kpiIconVocabulary] at ht
    rcases ht with h | h | h | h <;> subst h <;> decide
  · intro s h
    unfold getIcon at h
    split_ifs at h with h1 h2 h3 h4 h5 h6
    · simp at h1
      subst h1
      decide
    · simp at h2
      subst h2
      decide
    · simp at h3
      subst h3
      decide
    · simp at h4
      subst h4
      decide
    · simp at h5
      subst h5
      decide
    · simp at h6
      subst h6
      decide
    · exact absurd rfl h

/-- C6 witness: the vocabulary facts at concrete inputs — the first KPI of a
concrete extraction carries a vocabulary tag, and the vocabulary tag
`trend` renders as the default database icon. -/
theorem kpiIcon_vocabularies_witness :
    (∃ t, (KPICard.mk (("x") ++ (" count")) (toString (1 : Nat)) none none
        (some ("count"))).icon = some t ∧ t ∈ kpiIconVocabulary) ∧
    getIcon (some ("trend")) = Icon.database :=
  ⟨kpiIcon_vocabularies.1 none ("x") [1] _ (by simp [extractKpis]),
   kpiIcon_vocabularies.2.1 ("trend") (by decide)⟩

/-- A column resolved successfully is a schema column. -/
theorem resolveColumn_ok_mem {schema : List String} {n c : String}
    (h : resolveColumn schema n = .ok c) : c ∈ schema := by
  unfold resolveColumn at h
  split at h
  next c0 heq =>
    injection h with h2
    subst h2
    exact List.mem_of_find?_eq_some heq
  next heq =>
    split at h
    next => exact absurd h (by simp)
    next best heq2 =>
      by_cases h1 : simThreshold ≤ similarity n best
      · rw [if_pos h1] at h
        injection h with h3
        subst h3
        exact List.argmax_mem (Option.mem_def.mpr heq2)
      · rw [if_neg h1] at h
        by_cases h2 : 0 < similarity n best
        · rw [if_pos h2] at h
          exact absurd h (by simp)
        · rw [if_neg h2] at h
          exact absurd h (by simp)

/-- A resolution failure is a `SchemaMismatch` or an `AmbiguousColumn`. -/
theorem resolveColumn_error {schema : List String} {n : String} {e : QueryError}
    (h : resolveColumn schema n = .error e) :
    e = QueryError.SchemaMismatch ∨ e = QueryError.AmbiguousColumn := by
  unfold resolveColumn at h
  split at h
  next => exact absurd h (by simp)
  next heq =>
    split at h
    next =>
      left
      injection h with h2
      exact h2.symm
    next best heq2 =>
      by_cases h1 : simThreshold ≤ similarity n best
      · rw [if_pos h1] at h
        exact absurd h (by simp)
      · rw [if_neg h1] at h
        by_cases h2 : 0 < similarity n best
        · rw [if_pos h2] at h
          right
          injection h with h3
          exact h3.symm
        · rw [if_neg h2] at h
          left
          injection h with h3
          exact h3.symm

/-- Every column of a successfully resolved list is a schema column. -/
theorem resolveAll_ok_mem {schema : List String} :
    ∀ {ns cs : List String}, resolveAll schema ns = .ok cs →
      ∀ c ∈ cs, c ∈ schema := by
  intro ns
  induction ns with
  | nil =>
    intro cs h c hc
    simp [resolveAll] at h
    subst h
    simp at hc
  | cons n ns ih =>
    intro cs h c hc
    unfold resolveAll at h
    split at h
    · injection h with h2
      subst h2
      rcases List.mem_cons.mp hc with h3 | h3
      · subst h3
        exact resolveColumn_ok_mem (by assumption)
      · exact ih (by assumption) c h3
    · exact absurd h (by simp)
    · exact absurd h (by simp)

/-- A failing list resolution fails with a validation error. -/
theorem resolveAll_error {schema : List String} :
    ∀ {ns : List String} {e : QueryError}, resolveAll schema ns = .error e →
      e = QueryError.SchemaMismatch ∨ e = QueryError.AmbiguousColumn := by
  intro ns
  induction ns with
  | nil =>
    intro e h
    simp [resolveAll] at h
  | cons n ns ih =>
    intro e h
    unfold resolveAll at h
    split at h
    · exact absurd h (by simp)
    · injection h with h2
      subst h2
      exact resolveColumn_error (by assumption)
    · injection h with h2
      subst h2
      exact ih (by assumption)

/-- A successfully resolved optional column lies in the schema. -/
theorem resolveOpt_ok_mem {schema : List String} {o oc : Option String}
    (h : resolveOpt schema o = .ok oc) : ∀ c ∈ oc.toList, c ∈ schema := by
  intro c hc
  cases o with
  | none =>
    simp [resolveOpt] at h
    subst h
    simp at hc
  | some n =>
    simp only [resolveOpt] at h
    split at h
    next c0 heq =>
      injection h with h2
      subst h2
      simp at hc
      subst hc
      exact resolveColumn_ok_mem heq
    next => exact absurd h (by simp)

/-- A failing optional resolution fails with a validation error. -/
theorem resolveOpt_error {schema : List String} {o : Option String} {e : QueryError}
    (h : resolveOpt schema o = .error e) :
    e = QueryError.SchemaMismatch ∨ e = QueryError.AmbiguousColumn := by
  cases o with
  | none => simp [resolveOpt] at h
  | some n =>
    simp only [resolveOpt] at h
    split at h
    next => exact absurd h (by simp)
    next heq =>
      injection h with h2
      subst h2
      exact resolveColumn_error heq

/-- Every filter of a successfully resolved filter list references a schema
column. -/
theorem resolveFilters_ok_mem {schema : List String} :
    ∀ {fs rs : List FilterPred}, resolveFilters schema fs = .ok rs →
      ∀ f ∈ rs, filterColumn f ∈ schema := by
  intro fs
  induction fs with
  | nil =>
    intro rs h f hf
    simp [resolveFilters] at h
    subst h
    simp at hf
  | cons f0 fs ih =>
    intro rs h f hf
    unfold resolveFilters at h
    split at h
    next c0 rest heqc heqr =>
      injection h with h2
      subst h2
      rcases List.mem_cons.mp hf with h3 | h3
      · subst h3
        have : filterColumn (setFilterColumn f0 c0) = c0 := by
          cases f0 <;> rfl
        rw [this]
        exact resolveColumn_ok_mem heqc
      · exact ih heqr f h3
    next => exact absurd h (by simp)
    next => exact absurd h (by simp)

/-- A failing filter resolution fails with a validation error. -/
theorem resolveFilters_error {schema : List String} :
    ∀ {fs : List FilterPred} {e : QueryError}, resolveFilters schema fs = .error e →
      e = QueryError.SchemaMismatch ∨ e = QueryError.AmbiguousColumn := by
  intro fs
  induction fs with
  | nil =>
    intro e h
    simp [resolveFilters] at h
  | cons f0 fs ih =>
    intro e h
    unfold resolveFilters at h
    split at h
    · exact absurd h (by simp)
    next heq =>
      injection h with h2
      subst h2
      exact resolveColumn_error heq
    next heq =>
      injection h with h2
      subst h2
      exact ih heq

/-- Every column referenced by a validated plan lies in the schema. -/
theorem validatePlan_ok_mem {bt : String} {schema : List String} {p q : QueryPlan}
    (h : validatePlan bt schema p = .ok q) :
    ∀ c ∈ referencedColumnNames q, c ∈ schema := by
  unfold validatePlan at h
  by_cases ht : p.table ≠ bt
  · rw [if_pos ht] at h
    exact absurd h (by simp)
  · rw [if_neg ht] at h
    split at h
    next => exact absurd h (by simp)
    next sel hsel =>
      split at h
      next => exact absurd h (by simp)
      next gb hgb =>
        split at h
        next => exact absurd h (by simp)
        next ac hac =>
          split at h
          next => exact absurd h (by simp)
          next fs hfs =>
            split at h
            next => exact absurd h (by simp)
            next sb hsb =>
              injection h with h2
              subst h2
              intro c hc
              simp only [referencedColumnNames, List.mem_append] at hc
              rcases hc with ((((hc | hc) | hc) | hc) | hc)
              · exact resolveAll_ok_mem hsel c hc
              · exact resolveAll_ok_mem hgb c hc
              · exact resolveOpt_ok_mem hac c hc
              · rcases List.mem_map.mp hc with ⟨f, hf, rfl⟩
                exact resolveFilters_ok_mem hfs f hf
              · exact resolveOpt_ok_mem hsb c hc

/-- A rejected plan is rejected with one of the three validation errors. -/
theorem validatePlan_error {bt : String} {schema : List String} {p : QueryPlan}
    {e : QueryError} (h : validatePlan bt schema p = .error e) :
    e = QueryError.SchemaMismatch ∨ e = QueryError.AmbiguousColumn ∨
      e = QueryError.UnsafeQueryRejected := by
  have lift : ∀ {e0 : QueryError},
      (e0 = QueryError.SchemaMismatch ∨ e0 = QueryError.AmbiguousColumn) →
      (e0 = QueryError.SchemaMismatch ∨ e0 = QueryError.AmbiguousColumn ∨
        e0 = QueryError.UnsafeQueryRejected) :=
    fun h0 => h0.elim Or.inl (fun x => Or.inr (Or.inl x))
  unfold validatePlan at h
  by_cases ht : p.table ≠ bt
  · rw [if_pos ht] at h
    right
    right
    injection h with h2
    exact h2.symm
  · rw [if_neg ht] at h
    split at h
    next e0 heq =>
      injection h with h2
      subst h2
      exact lift (resolveAll_error heq)
    next sel hsel =>
      split at h
      next e0 heq =>
        injection h with h2
        subst h2
        exact lift (resolveAll_error heq)
      next gb hgb =>
        split at h
        next e0 heq =>
          injection h with h2
          subst h2
          exact lift (resolveOpt_error heq)
        next ac hac =>
          split at h
          next e0 heq =>
            injection h with h2
            subst h2
            exact lift (resolveFilters_error heq)
          next fs hfs =>
            split at h
            next e0 heq =>
              injection h with h2
              subst h2
              exact lift (resolveOpt_error heq)
            next => exact absurd h (by simp)

/-- An executed plan never yields more rows than the cap. -/
theorem executePlan_length_le (cap : Nat) (rows : List Row) (q : QueryPlan) :
    (executePlan cap rows q).length ≤ cap :=
  List.length_take_le _ _

/-- C1: a successful run of the Safe Query Synthesizer & Executor yields at
most the configured hard cap of result rows, and the executed (validated)
plan references only columns of the dataset's schema. -/
theorem synthesizer_cap_and_schema (cap : Nat) (ds : DatasetMeta) (rows : List Row)
    (draft : QueryPlan) (out : List Row)
    (h : runStructuredQuery cap ds rows draft = .ok out) :
    out.length ≤ cap ∧
    ∃ q, validatePlan ds.table_name ds.schemaColumns draft = .ok q ∧
      out = executePlan cap rows q ∧
      ∀ c ∈ referencedColumnNames q, c ∈ ds.schemaColumns := by
  unfold runStructuredQuery at h
  split at h
  next => exact absurd h (by simp)
  next q heq =>
    injection h with h2
    subst h2
    exact ⟨executePlan_length_le cap rows q, q, heq, rfl, validatePlan_ok_mem heq⟩

/-- The sample dataset metadata bound to table `tbl_7`. -/
def dsSample : DatasetMeta := ⟨7, 1, ("tbl_7"), [("vendor"), ("price")]⟩

/-- A sample table of one row. -/
def rowsSample : List Row :=
  [[(("vendor"), Value.str ("acme")), (("price"), Value.int 3)]]

/-- A draft plan that resolves cleanly (case-insensitive column match). -/
def goodDraft : QueryPlan :=
  ⟨("tbl_7"), [("Vendor")], AggFunc.noAgg, none, [], [], none, true⟩

/-- A draft plan addressing a foreign table, violating the safety
contract. -/
def badDraft : QueryPlan :=
  ⟨("users"), [], AggFunc.noAgg, none, [], [], none, true⟩

/-- A sample engine state holding the sample dataset and its table. -/
def stSample : AppState :=
  ⟨[dsSample], [(("tbl_7"), rowsSample)], []⟩

/-- C1 witness: the concrete pipeline run stays under the cap. -/
theorem synthesizer_cap_and_schema_witness :
    (runStructuredQuery 10000 dsSample rowsSample goodDraft =
      Except.ok [[(("vendor"), Value.str ("acme"))]]) ∧
    ([[(("vendor"), Value.str ("acme"))]] : List Row).length ≤ 10000 :=
  ⟨by rfl,
   (synthesizer_cap_and_schema 10000 dsSample rowsSample goodDraft _ (by rfl)).1⟩

/-- C7: a draft plan that fails validation fails with `SchemaMismatch`,
`AmbiguousColumn` or `UnsafeQueryRejected`, raised before any execution
step: the turn handler returns the error and the system state is returned
exactly as it was. -/
theorem validationFailure_no_side_effects (cap : Nat) (ds : DatasetMeta)
    (draft : QueryPlan) (st : AppState) (e : QueryError)
    (h : validatePlan ds.table_name ds.schemaColumns draft = .error e) :
    (e = QueryError.SchemaMismatch ∨ e = QueryError.AmbiguousColumn ∨
      e = QueryError.UnsafeQueryRejected) ∧
    handleStructuredTurn cap ds draft st = (st, .error e) := by
  refine ⟨validatePlan_error h, ?_⟩
  unfold handleStructuredTurn
  rw [h]

/-- C7 witness: the unsafe draft is rejected with the state untouched. -/
theorem validationFailure_no_side_effects_witness :
    handleStructuredTurn 10000 dsSample badDraft stSample =
      (stSample, Except.error QueryError.UnsafeQueryRejected) :=
  (validationFailure_no_side_effects 10000 dsSample badDraft stSample
    QueryError.UnsafeQueryRejected (by rfl)).2

/-- C8: a request whose verified identity is not the dataset's owner is
answered `Unauthorized` with zero result rows and an unchanged state. -/
theorem nonOwner_unauthorized (cap : Nat) (req : EngineRequest) (st : AppState)
    (ds : DatasetMeta)
    (hfind : st.datasets.find? (fun d => d.id = req.datasetId) = some ds)
    (hown : ds.owner_id ≠ req.userId) :
    handleRequest cap req st = (st, .error QueryError.Unauthorized) ∧
    rowsOf (handleRequest cap req st).2 = [] := by
  have h : handleRequest cap req st = (st, .error QueryError.Unauthorized) := by
    unfold handleRequest
    rw [hfind]
    simp [hown]
  refine ⟨h, ?_⟩
  rw [h]
  rfl

/-- C8 witness: user 2 requesting user 1's dataset is rejected. -/
theorem nonOwner_unauthorized_witness :
    handleRequest 10000 ⟨2, 7, goodDraft⟩ stSample =
      (stSample, Except.error QueryError.Unauthorized) :=
  (nonOwner_unauthorized 10000 ⟨2, 7, goodDraft⟩ stSample dsSample
    (by decide) (by decide)).1

/-- The ranking order, spelled out. -/
theorem rankLe_iff (a b : ScoredDoc) :
    rankLe a b = true ↔
      b.fused < a.fused ∨ (a.fused = b.fused ∧ a.doc.rowId ≤ b.doc.rowId) := by
  simp [rankLe]

/-- The ranking order is transitive. -/
theorem rankLe_trans (a b c : ScoredDoc) (h1 : rankLe a b = true)
    (h2 : rankLe b c = true) : rankLe a c = true := by
  rw [rankLe_iff] at h1 h2 ⊢
  rcases h1 with h1 | ⟨h1, h1r⟩ <;> rcases h2 with h2 | ⟨h2, h2r⟩
  · exact Or.inl (h2.trans h1)
  · exact Or.inl (h2 ▸ h1)
  · exact Or.inl (h1 ▸ h2)
  · exact Or.inr ⟨h1.trans h2, h1r.trans h2r⟩

/-- The ranking order is total. -/
theorem rankLe_total (a b : ScoredDoc) :
    rankLe a b = true ∨ rankLe b a = true := by
  rw [rankLe_iff, rankLe_iff]
  rcases lt_trichotomy a.fused b.fused with h | h | h
  · exact Or.inr (Or.inl h)
  · rcases Nat.le_total a.doc.rowId b.doc.rowId with hr | hr
    · exact Or.inl (Or.inr ⟨h, hr⟩)
    · exact Or.inr (Or.inr ⟨h.symm, hr⟩)
  · exact Or.inl (Or.inl h)

instance : IsTrans ScoredDoc rankRel := ⟨rankLe_trans⟩

instance : IsTotal ScoredDoc rankRel := ⟨rankLe_total⟩

/-- Scoring keeps the documents' row ids in order. -/
theorem scoreDocs_map_rowId (cfg : FusionConfig) (q : RetrievalQuery)
    (g : IndexGeneration) :
    (scoreDocs cfg q g).map (fun s => s.doc.rowId) = g.docs.map IndexedDoc.rowId := by
  simp only [scoreDocs]
  rw [List.map_map]
  rfl

/-- C2: the fused query is deterministic — equal query and generation give
the identical ordered result — and in the returned ranking two results with
equal fused scores appear in ascending original-row-id order (given one
indexed document per row). -/
theorem retrieval_deterministic_tiebreak (cfg : FusionConfig) (q : RetrievalQuery)
    (g : IndexGeneration) (hN : (g.docs.map IndexedDoc.rowId).Nodup) :
    (∀ (q2 : RetrievalQuery) (g2 : IndexGeneration), q2 = q → g2 = g →
      queryIndex cfg q2 g2 = queryIndex cfg q g) ∧
    ∀ (i j : Fin (queryIndex cfg q g).length), i < j →
      ((queryIndex cfg q g).get i).fused = ((queryIndex cfg q g).get j).fused →
      ((queryIndex cfg q g).get i).doc.rowId < ((queryIndex cfg q g).get j).doc.rowId := by
  constructor
  · intro q2 g2 h1 h2
    rw [h1, h2]
  · have hsorted : List.Pairwise rankRel (queryIndex cfg q g) :=
      List.Pairwise.sublist (List.take_sublist _ _)
        (List.sorted_insertionSort rankRel _)
    have hnd0 : ((scoreDocs cfg q g).map (fun s => s.doc.rowId)).Nodup := by
      rw [scoreDocs_map_rowId]
      exact hN
    have hperm :
        (((scoreDocs cfg q g).insertionSort rankRel).map (fun s => s.doc.rowId)).Perm
          ((scoreDocs cfg q g).map (fun s => s.doc.rowId)) :=
      (List.perm_insertionSort rankRel _).map _
    have hnd1 := (hperm.nodup_iff).mpr hnd0
    have hnd2 : ((queryIndex cfg q g).map (fun s => s.doc.rowId)).Nodup :=
      List.Nodup.sublist ((List.take_sublist _ _).map _) hnd1
    have hids : List.Pairwise
        (fun a b : ScoredDoc => a.doc.rowId ≠ b.doc.rowId) (queryIndex cfg q g) :=
      List.pairwise_map.mp hnd2
    intro i j hij hfe
    have h1 := List.pairwise_iff_get.mp hsorted i j hij
    have h2 := List.pairwise_iff_get.mp hids i j hij
    rcases (rankLe_iff _ _).mp h1 with h3 | ⟨h3, h3r⟩
    · rw [hfe] at h3
      exact absurd h3 (lt_irrefl _)
    · exact lt_of_le_of_ne h3r h2

/-- The sample fusion configuration. -/
def cfgSample : FusionConfig := ⟨1, 1, 10⟩

/-- The sample retrieval query. -/
def qSample : RetrievalQuery := ⟨[("a")], [1]⟩

/-- A generation with two identically scoring documents (row ids 5 and
9). -/
def gSample : IndexGeneration :=
  ⟨[⟨9, [("a")], some [1]⟩, ⟨5, [("a")], some [1]⟩], 2, 1⟩

/-- C2 witness: on the concrete tied generation the row-5 document precedes
the row-9 one. -/
theorem retrieval_deterministic_tiebreak_witness :
    (gSample.docs.map IndexedDoc.rowId).Nodup ∧ (5 : Nat) < 9 :=
  ⟨by decide,
   (retrieval_deterministic_tiebreak cfgSample qSample gSample (by decide)).2
     ⟨0, by decide⟩ ⟨1, by decide⟩ (by decide) (by decide)⟩

/-- No two adjacent hyphens occur in the list. -/
def noDoubleHyphen : List Nat → Bool
  | [] => true
  | [_] => true
  | a :: b :: t => (!(a = hyphen && b = hyphen)) && noDoubleHyphen (b :: t)

/-- Dropping a prefix keeps membership. -/
theorem mem_of_mem_dropWhileNat {p : Nat → Bool} :
    ∀ {l : List Nat} {c : Nat}, c ∈ l.dropWhile p → c ∈ l := by
  intro l
  induction l with
  | nil => intro c hc; simp [List.dropWhile] at hc
  | cons x xs ih =>
    intro c hc
    rw [List.dropWhile] at hc
    cases hp : p x with
    | true =>
      rw [hp] at hc
      exact List.mem_cons_of_mem x (ih hc)
    | false =>
      rw [hp] at hc
      exact hc

/-- Stripping a trailing hyphen run keeps membership. -/
theorem mem_of_mem_rstripHyphen :
    ∀ {l : List Nat} {c : Nat}, c ∈ rstripHyphen l → c ∈ l := by
  intro l
  induction l with
  | nil => intro c hc; simp [rstripHyphen] at hc
  | cons x xs ih =>
    intro c hc
    rw [rstripHyphen] at hc
    cases hr : rstripHyphen xs with
    | nil =>
      rw [hr] at hc
      by_cases hx : x = hyphen
      · rw [if_pos hx] at hc
        simp at hc
      · rw [if_neg hx] at hc
        rcases List.mem_cons.mp hc with h | h
        · exact h ▸ List.mem_cons_self _ _
        · simp at h
    | cons y ys =>
      rw [hr] at hc
      rcases List.mem_cons.mp hc with h | h
      · exact h ▸ List.mem_cons_self _ _
      · exact List.mem_cons_of_mem x (ih (hr ▸ h))

/-- Every character the collapse step emits is alphanumeric or a hyphen. -/
theorem collapseAux_mem :
    ∀ (l : List Nat) (b : Bool) {c : Nat}, c ∈ collapseAux b l →
      isLowerAlnum c = true ∨ c = hyphen := by
  intro l
  induction l with
  | nil => intro b c hc; simp [collapseAux] at hc
  | cons x xs ih =>
    intro b c hc
    rw [collapseAux] at hc
    by_cases hx : isLowerAlnum x
    · rw [if_pos hx] at hc
      rcases List.mem_cons.mp hc with h | h
      · exact Or.inl (h ▸ hx)
      · exact ih false h
    · rw [if_neg hx] at hc
      cases b with
      | true =>
        rw [if_pos rfl] at hc
        exact ih true hc
      | false =>
        rw [if_neg (by simp)] at hc
        rcases List.mem_cons.mp hc with h | h
        · exact Or.inr h
        · exact ih true h

/-- Every character of a sanitized filename is a lowercase letter, a digit
or a hyphen. -/
theorem sanitizeFilename_chars (t : List Nat) :
    ∀ c ∈ sanitizeFilename t, isLowerAlnum c = true ∨ c = hyphen := by
  intro c hc
  have h1 := List.mem_of_mem_take hc
  have h2 := mem_of_mem_rstripHyphen h1
  have h3 := mem_of_mem_dropWhileNat h2
  exact collapseAux_mem _ false h3

/-- The head surviving a hyphen `dropWhile` is not a hyphen. -/
theorem dropWhile_hyphen_head :
    ∀ (l : List Nat), (l.dropWhile (fun c => c = hyphen)).head? ≠ some hyphen := by
  intro l
  induction l with
  | nil => simp [List.dropWhile]
  | cons x xs ih =>
    rw [List.dropWhile]
    cases hx : (decide (x = hyphen)) with
    | true =>
      exact ih
    | false =>
      simp at hx
      simp [hx]

/-- Stripping a trailing run preserves the head (or empties the list). -/
theorem rstripHyphen_head :
    ∀ (l : List Nat), rstripHyphen l = [] ∨ (rstripHyphen l).head? = l.head? := by
  intro l
  cases l with
  | nil => exact Or.inl rfl
  | cons x xs =>
    rw [rstripHyphen]
    cases hr : rstripHyphen xs with
    | nil =>
      by_cases hx : x = hyphen
      · rw [if_pos hx]
        exact Or.inl rfl
      · rw [if_neg hx]
        exact Or.inr rfl
    | cons y ys => exact Or.inr rfl

/-- A sanitized filename never starts with a hyphen. -/
theorem sanitizeFilename_head (t : List Nat) :
    (sanitizeFilename t).head? ≠ some hyphen := by
  unfold sanitizeFilename stripHyphens
  rw [List.head?_take, if_neg (by decide : ¬((50 : Nat) = 0))]
  rcases rstripHyphen_head ((collapseRuns (t.map lowerCode)).dropWhile
    (fun c => c = hyphen)) with h2 | h2
  · rw [h2]
    simp
  · rw [h2]
    exact dropWhile_hyphen_head _

/-- The adjacency invariant restricts to tails. -/
theorem ndh_tail {a : Nat} {l : List Nat} (h : noDoubleHyphen (a :: l) = true) :
    noDoubleHyphen l = true := by
  cases l with
  | nil => rfl
  | cons b t =>
    simp only [noDoubleHyphen, Bool.and_eq_true] at h
    exact h.2

/-- The collapse step in-run never emits a leading hyphen. -/
theorem collapseAux_true_head :
    ∀ (l : List Nat), (collapseAux true l).head? ≠ some hyphen := by
  intro l
  induction l with
  | nil => simp [collapseAux]
  | cons x xs ih =>
    rw [collapseAux]
    by_cases hx : isLowerAlnum x
    · rw [if_pos hx]
      intro hcon
      injection hcon with hcon
      subst hcon
      exact absurd hx (by decide)
    · rw [if_neg hx, if_pos rfl]
      exact ih

/-- The collapse step never emits two adjacent hyphens. -/
theorem collapseAux_ndh :
    ∀ (l : List Nat) (b : Bool), noDoubleHyphen (collapseAux b l) = true := by
  intro l
  induction l with
  | nil => intro b; rfl
  | cons x xs ih =>
    intro b
    rw [collapseAux]
    by_cases hx : isLowerAlnum x
    · rw [if_pos hx]
      cases hc : collapseAux false xs with
      | nil => rfl
      | cons y ys =>
        have hx45 : x ≠ hyphen := by
          intro hcon
          subst hcon
          exact absurd hx (by decide)
        simp only [noDoubleHyphen, Bool.and_eq_true]
        refine ⟨by simp [hx45], ?_⟩
        exact hc ▸ ih false
    · rw [if_neg hx]
      cases b with
      | true =>
        rw [if_pos rfl]
        exact ih true
      | false =>
        rw [if_neg (by simp)]
        cases hc : collapseAux true xs with
        | nil => rfl
        | cons y ys =>
          have hy : y ≠ hyphen := by
            intro hcon
            apply collapseAux_true_head xs
            rw [hc, hcon]
            rfl
          simp only [noDoubleHyphen, Bool.and_eq_true]
          refine ⟨by simp [hy], ?_⟩
          exact hc ▸ ih true

/-- `dropWhile` preserves the adjacency invariant. -/
theorem ndh_dropWhile {p : Nat → Bool} :
    ∀ {l : List Nat}, noDoubleHyphen l = true →
      noDoubleHyphen (l.dropWhile p) = true := by
  intro l
  induction l with
  | nil => intro h; exact h
  | cons x xs ih =>
    intro h
    rw [List.dropWhile]
    cases hp : p x with
    | true => exact ih (ndh_tail h)
    | false => exact h

/-- Stripping a trailing run preserves the adjacency invariant. -/
theorem rstripHyphen_ndh :
    ∀ {l : List Nat}, noDoubleHyphen l = true →
      noDoubleHyphen (rstripHyphen l) = true := by
  intro l
  induction l with
  | nil => intro h; exact h
  | cons x xs ih =>
    intro h
    rw [rstripHyphen]
    cases hr : rstripHyphen xs with
    | nil =>
      by_cases hx : x = hyphen
      · rw [if_pos hx]
        rfl
      · rw [if_neg hx]
        rfl
    | cons y ys =>
      rcases rstripHyphen_head xs with hnil | hhead
      · rw [hnil] at hr
        exact absurd hr (by simp)
      · rw [hr] at hhead
        cases xs with
        | nil => simp [rstripHyphen] at hr
        | cons z zs =>
          simp only [List.head?] at hhead
          injection hhead with hyz
          subst hyz
          simp only [noDoubleHyphen, Bool.and_eq_true] at h ⊢
          obtain ⟨h1, h2⟩ := h
          exact ⟨h1, hr ▸ ih h2⟩

/-- `take` preserves the adjacency invariant. -/
theorem ndh_take :
    ∀ (l : List Nat) (n : Nat), noDoubleHyphen l = true →
      noDoubleHyphen (l.take n) = true := by
  intro l
  induction l with
  | nil =>
    intro n h
    rw [List.take_nil]
    rfl
  | cons x xs ih =>
    intro n h
    cases n with
    | zero => rfl
    | succ m =>
      rw [List.take_succ_cons]
      cases xs with
      | nil =>
        rw [List.take_nil]
        rfl
      | cons y ys =>
        cases m with
        | zero => rfl
        | succ k =>
          rw [List.take_succ_cons]
          simp only [noDoubleHyphen, Bool.and_eq_true] at h ⊢
          obtain ⟨h1, h2⟩ := h
          refine ⟨h1, ?_⟩
          have h3 := ih (k + 1) h2
          rw [List.take_succ_cons] at h3
          exact h3

/-- A sanitized filename has no two adjacent hyphens. -/
theorem sanitizeFilename_ndh (t : List Nat) :
    noDoubleHyphen (sanitizeFilename t) = true :=
  ndh_take _ 50 (rstripHyphen_ndh (ndh_dropWhile (collapseAux_ndh _ false)))

/-- Stripping a trailing run leaves no trailing hyphen. -/
theorem rstripHyphen_getLast :
    ∀ (l : List Nat), (rstripHyphen l).getLast? ≠ some hyphen := by
  intro l
  induction l with
  | nil => simp [rstripHyphen]
  | cons x xs ih =>
    rw [rstripHyphen]
    cases hr : rstripHyphen xs with
    | nil =>
      by_cases hx : x = hyphen
      · rw [if_pos hx]
        simp
      · rw [if_neg hx]
        simp [List.getLast?, hx]
    | cons y ys =>
      rw [List.getLast?_cons_cons]
      rw [hr] at ih
      exact ih

/-- Case folding fixes the characters the sanitizer can output. -/
theorem lowerCode_fix {c : Nat} (h : isLowerAlnum c = true ∨ c = hyphen) :
    lowerCode c = c := by
  rw [lowerCode]
  rcases h with h | h
  · simp [isLowerAlnum] at h
    rw [if_neg]
    simp
    omega
  · subst h
    decide

/-- Case folding fixes lists of output characters. -/
theorem map_lowerCode_fix :
    ∀ {l : List Nat}, (∀ c ∈ l, isLowerAlnum c = true ∨ c = hyphen) →
      l.map lowerCode = l := by
  intro l
  induction l with
  | nil => intro _; rfl
  | cons x xs ih =>
    intro h
    rw [List.map_cons, lowerCode_fix (h x (List.mem_cons_self _ _)),
      ih (fun c hc => h c (List.mem_cons_of_mem _ hc))]

/-- The collapse step fixes already-collapsed output. -/
theorem collapseAux_fix :
    ∀ (l : List Nat) (b : Bool),
      (∀ c ∈ l, isLowerAlnum c = true ∨ c = hyphen) →
      noDoubleHyphen l = true →
      (b = true → l.head? ≠ some hyphen) →
      collapseAux b l = l := by
  intro l
  induction l with
  | nil => intro b _ _ _; rfl
  | cons x xs ih =>
    intro b hm hd hb
    rw [collapseAux]
    rcases hm x (List.mem_cons_self _ _) with hx | hx
    · rw [if_pos hx]
      congr 1
      exact ih false (fun c hc => hm c (List.mem_cons_of_mem _ hc)) (ndh_tail hd)
        (fun hf => absurd hf Bool.false_ne_true)
    · subst hx
      rw [if_neg (by decide)]
      cases b with
      | true => exact absurd rfl (hb rfl)
      | false =>
        rw [if_neg (by simp)]
        congr 1
        apply ih true (fun c hc => hm c (List.mem_cons_of_mem _ hc)) (ndh_tail hd)
        intro _
        cases xs with
        | nil => simp
        | cons y ys =>
          simp only [noDoubleHyphen, Bool.and_eq_true] at hd
          obtain ⟨h1, _⟩ := hd
          simp at h1
          simp [h1]

/-- Dropping leading hyphens fixes a list whose head is no hyphen. -/
theorem dropWhile_fix {l : List Nat} (h : l.head? ≠ some hyphen) :
    l.dropWhile (fun c => c = hyphen) = l := by
  cases l with
  | nil => rfl
  | cons x xs =>
    rw [List.dropWhile]
    have hx : x ≠ hyphen := by simpa using h
    simp [hx]

/-- The empty strip result means an empty or all-hyphen-ending input. -/
theorem rstripHyphen_eq_nil :
    ∀ {l : List Nat}, rstripHyphen l = [] → l = [] ∨ l.getLast? = some hyphen := by
  intro l
  induction l with
  | nil => intro _; exact Or.inl rfl
  | cons x xs ih =>
    intro h
    rw [rstripHyphen] at h
    cases hr : rstripHyphen xs with
    | nil =>
      rw [hr] at h
      by_cases hx : x = hyphen
      · subst hx
        rcases ih hr with hxs | hxs
        · subst hxs
          exact Or.inr rfl
        · right
          cases xs with
          | nil => rfl
          | cons y ys => rw [List.getLast?_cons_cons]; exact hxs
      · rw [if_neg hx] at h
        exact absurd h (by simp)
    | cons y ys =>
      rw [hr] at h
      exact absurd h (by simp)

/-- Stripping a trailing run fixes a list with no trailing hyphen. -/
theorem rstripHyphen_fix :
    ∀ {l : List Nat}, l.getLast? ≠ some hyphen → rstripHyphen l = l := by
  intro l
  induction l with
  | nil => intro _; rfl
  | cons x xs ih =>
    intro h
    rw [rstripHyphen]
    cases hr : rstripHyphen xs with
    | nil =>
      rcases rstripHyphen_eq_nil hr with hxs | hxs
      · subst hxs
        have hx : x ≠ hyphen := by simpa [List.getLast?] using h
        rw [if_neg hx]
      · cases xs with
        | nil => simp [rstripHyphen] at hr; simp at hxs
        | cons y ys =>
          rw [List.getLast?_cons_cons] at h
          exact absurd hxs h
    | cons y ys =>
      cases xs with
      | nil => simp [rstripHyphen] at hr
      | cons z zs =>
        rw [List.getLast?_cons_cons] at h
        rw [← hr, ih h]

/-- A sanitized filename fits in 50 characters. -/
theorem sanitizeFilename_length (t : List Nat) :
    (sanitizeFilename t).length ≤ 50 :=
  List.length_take_le _ _

/-- A sanitized filename shorter than the cap has no trailing hyphen. -/
theorem sanitizeFilename_getLast_of_short (t : List Nat)
    (h : (sanitizeFilename t).length < 50) :
    (sanitizeFilename t).getLast? ≠ some hyphen := by
  unfold sanitizeFilename stripHyphens at h ⊢
  rw [List.length_take] at h
  have hlen : (rstripHyphen ((collapseRuns (t.map lowerCode)).dropWhile
      (fun c => c = hyphen))).length ≤ 50 := by
    rcases Nat.le_total
      ((rstripHyphen ((collapseRuns (t.map lowerCode)).dropWhile
        (fun c => c = hyphen))).length) 50 with h2 | h2
    · exact h2
    · rw [Nat.min_eq_left h2] at h
      omega
  rw [List.take_of_length_le hlen]
  exact rstripHyphen_getLast _

/-- Sanitizing is idempotent on outputs without a trailing hyphen. -/
theorem sanitizeFilename_idem (t : List Nat)
    (h : (sanitizeFilename t).getLast? ≠ some hyphen) :
    sanitizeFilename (sanitizeFilename t) = sanitizeFilename t := by
  have hchars := sanitizeFilename_chars t
  have hndh := sanitizeFilename_ndh t
  have hhead := sanitizeFilename_head t
  have hlen : (sanitizeFilename t).length ≤ 50 := List.length_take_le _ _
  conv_lhs => rw [sanitizeFilename]
  rw [map_lowerCode_fix hchars]
  rw [show collapseRuns (sanitizeFilename t) = sanitizeFilename t from
    collapseAux_fix _ false hchars hndh (fun hf => absurd hf Bool.false_ne_true)]
  rw [stripHyphens, dropWhile_fix hhead, rstripHyphen_fix h]
  exact List.take_of_length_le hlen

/-- Stripping a trailing run strictly shortens a list that ends in a
hyphen. -/
theorem rstripHyphen_length_lt :
    ∀ {l : List Nat}, l.getLast? = some hyphen →
      (rstripHyphen l).length < l.length := by
  intro l
  induction l with
  | nil => intro h; simp at h
  | cons x xs ih =>
    intro h
    cases xs with
    | nil =>
      have hx : x = hyphen := by simpa [List.getLast?] using h
      subst hx
      decide
    | cons z zs =>
      rw [List.getLast?_cons_cons] at h
      have hlt := ih h
      rw [rstripHyphen]
      cases hr : rstripHyphen (z :: zs) with
      | nil =>
        by_cases hx : x = hyphen
        · rw [if_pos hx]
          simp
        · rw [if_neg hx]
          simp
      | cons r rs =>
        rw [hr] at hlt
        simp only [List.length_cons] at hlt ⊢
        omega

/-- A sanitized filename that does end in a hyphen is not a fixed point:
a second application strips that hyphen and strictly shortens it. -/
theorem sanitizeFilename_not_idem_of_trailing (t : List Nat)
    (h : (sanitizeFilename t).getLast? = some hyphen) :
    sanitizeFilename (sanitizeFilename t) ≠ sanitizeFilename t := by
  have hchars := sanitizeFilename_chars t
  have hndh := sanitizeFilename_ndh t
  have hhead := sanitizeFilename_head t
  have hf : sanitizeFilename (sanitizeFilename t) =
      (rstripHyphen (sanitizeFilename t)).take 50 := by
    conv_lhs => rw [sanitizeFilename]
    rw [map_lowerCode_fix hchars]
    rw [show collapseRuns (sanitizeFilename t) = sanitizeFilename t from
      collapseAux_fix _ false hchars hndh (fun hf => absurd hf Bool.false_ne_true)]
    rw [stripHyphens, dropWhile_fix hhead]
  have hlt : (sanitizeFilename (sanitizeFilename t)).length <
      (sanitizeFilename t).length := by
    rw [hf]
    have h1 : ((rstripHyphen (sanitizeFilename t)).take 50).length ≤
        (rstripHyphen (sanitizeFilename t)).length := by
      rw [List.length_take]
      exact inf_le_right
    exact lt_of_le_of_lt h1 (rstripHyphen_length_lt h)
  intro hcon
  rw [hcon] at hlt
  exact lt_irrefl _ hlt

/-- C9 (amended): `sanitizeFilename` always returns at most 50 characters,
all lowercase alphanumerics or hyphens, never starting with a hyphen; a
result shorter than the 50-character cap also never ends with a hyphen
(truncation at the cap can leave a trailing hyphen), and the function is
idempotent exactly on the inputs whose result has no trailing hyphen: such
results are fixed points, while a result ending in a hyphen is changed by a
second application. -/
theorem sanitizeFilename_spec (t : List Nat) :
    (sanitizeFilename t).length ≤ 50 ∧
    (∀ c ∈ sanitizeFilename t, isLowerAlnum c = true ∨ c = hyphen) ∧
    (sanitizeFilename t).head? ≠ some hyphen ∧
    ((sanitizeFilename t).length < 50 → (sanitizeFilename t).getLast? ≠ some hyphen) ∧
    ((sanitizeFilename t).getLast? ≠ some hyphen →
      sanitizeFilename (sanitizeFilename t) = sanitizeFilename t) ∧
    ((sanitizeFilename t).getLast? = some hyphen →
      sanitizeFilename (sanitizeFilename t) ≠ sanitizeFilename t) :=
  ⟨sanitizeFilename_length t, sanitizeFilename_chars t, sanitizeFilename_head t,
   sanitizeFilename_getLast_of_short t, sanitizeFilename_idem t,
   sanitizeFilename_not_idem_of_trailing t⟩

/-- The 51-character input whose sanitized form is cut right after a
hyphen: 49 letters `a`, one space, one letter `b`. -/
def hyphenCutInput : List Nat := List.replicate 49 97 ++ [32, 98]

/-- C9 counterexample: on the concrete 51-character input the sanitizer
returns a string that ends in a hyphen (the space became a hyphen and
truncation cut directly behind it), and applying the sanitizer again
changes its own output — so the claimed trailing-hyphen freedom and
idempotence both fail. -/
theorem sanitizeFilename_not_idempotent :
    (sanitizeFilename hyphenCutInput).getLast? = some hyphen ∧
    sanitizeFilename (sanitizeFilename hyphenCutInput) ≠
      sanitizeFilename hyphenCutInput := by
  decide

/-- C9 witness: the amended statement exercised concretely in both
directions — a short trailing-hyphen-free output is a fixed point, and the
truncation-cut output is not. -/
theorem sanitizeFilename_spec_witness :
    ((sanitizeFilename [77, 121, 32, 67]).getLast? ≠ some hyphen) ∧
    (sanitizeFilename (sanitizeFilename [77, 121, 32, 67]) =
      sanitizeFilename [77, 121, 32, 67]) ∧
    ((sanitizeFilename hyphenCutInput).getLast? = some hyphen) ∧
    sanitizeFilename (sanitizeFilename hyphenCutInput) ≠
      sanitizeFilename hyphenCutInput :=
  ⟨by decide,
   (sanitizeFilename_spec [77, 121, 32, 67]).2.2.2.2.1 (by decide),
   by decide,
   (sanitizeFilename_spec hyphenCutInput).2.2.2.2.2 (by decide)⟩

/-- A cell whose textual form introduces no newline: a string value free of
the newline character (numbers render as digits and a sign only). -/
def cellNlFree : CellValue → Prop
  | .str s => nl ∉ s
  | .num _ => True

instance : DecidablePred cellNlFree := fun v =>
  match v with
  | .str s => inferInstanceAs (Decidable (nl ∉ s))
  | .num _ => inferInstanceAs (Decidable True)

/-- Digit characters emitted for naturals lie in `'0'..'9'`. -/
theorem natDigitsAux_mem :
    ∀ (fuel n : Nat) {c : Nat}, c ∈ natDigitsAux fuel n → 48 ≤ c ∧ c ≤ 57 := by
  intro fuel
  induction fuel with
  | zero => intro n c hc; simp [natDigitsAux] at hc
  | succ f ih =>
    intro n c hc
    rw [natDigitsAux] at hc
    by_cases hn : n < 10
    · rw [if_pos hn] at hc
      simp at hc
      omega
    · rw [if_neg hn] at hc
      rcases List.mem_append.mp hc with h | h
      · exact ih _ h
      · simp at h
        have : n % 10 < 10 := Nat.mod_lt _ (by omega)
        omega

/-- An integer cell's textual form contains no newline. -/
theorem renderInt_no_nl (n : Int) : nl ∉ renderInt n := by
  intro hmem
  rw [renderInt] at hmem
  by_cases hn : n < 0
  · rw [if_pos hn] at hmem
    rcases List.mem_cons.mp hmem with h | h
    · exact absurd h (by decide)
    · have := natDigitsAux_mem _ _ h
      simp [nl] at this
  · rw [if_neg hn] at hmem
    have := natDigitsAux_mem _ _ hmem
    simp [nl] at this

/-- Quote doubling introduces only quote characters. -/
theorem escapeQuotes_mem :
    ∀ {s : List Nat} {c : Nat}, c ∈ escapeQuotes s → c ∈ s ∨ c = dquote := by
  intro s
  induction s with
  | nil => intro c hc; simp [escapeQuotes] at hc
  | cons x xs ih =>
    intro c hc
    rw [escapeQuotes] at hc
    by_cases hx : x = dquote
    · rw [if_pos hx] at hc
      rcases List.mem_cons.mp hc with h | h
      · exact Or.inr h
      · rcases List.mem_cons.mp h with h2 | h2
        · exact Or.inr h2
        · rcases ih h2 with h3 | h3
          · exact Or.inl (List.mem_cons_of_mem _ h3)
          · exact Or.inr h3
    · rw [if_neg hx] at hc
      rcases List.mem_cons.mp hc with h | h
      · exact Or.inl (h ▸ List.mem_cons_self _ _)
      · rcases ih h with h3 | h3
        · exact Or.inl (List.mem_cons_of_mem _ h3)
        · exact Or.inr h3

/-- A newline-free cell renders without a newline. -/
theorem csvCell_no_nl {v : CellValue} (hv : cellNlFree v) : nl ∉ csvCell v := by
  cases v with
  | num n => exact renderInt_no_nl n
  | str s =>
    rw [csvCell]
    by_cases hq : comma ∈ s ∨ dquote ∈ s
    · rw [if_pos hq]
      intro hmem
      rcases List.mem_cons.mp hmem with h | h
      · exact absurd h (by decide)
      · rcases List.mem_append.mp h with h2 | h2
        · rcases escapeQuotes_mem h2 with h3 | h3
          · exact hv h3
          · exact absurd h3 (by decide)
        · simp at h2
          exact absurd h2 (by decide)
    · rw [if_neg hq]
      exact hv

/-- Membership in a single-separator `intercalate`. -/
theorem mem_intercalate_single {x : Nat} :
    ∀ {ls : List (List Nat)} {c : Nat},
      c ∈ [x].intercalate ls → c = x ∨ ∃ l ∈ ls, c ∈ l := by
  intro ls
  induction ls with
  | nil => intro c hc; simp [List.intercalate] at hc
  | cons l ls ih =>
    intro c hc
    cases ls with
    | nil =>
      simp [List.intercalate] at hc
      exact Or.inr ⟨l, List.mem_cons_self _ _, hc⟩
    | cons m ms =>
      have hsplit : [x].intercalate (l :: m :: ms) =
          l ++ ([x] ++ [x].intercalate (m :: ms)) := by
        simp [List.intercalate, List.intersperse]
      rw [hsplit] at hc
      rcases List.mem_append.mp hc with h | h
      · exact Or.inr ⟨l, List.mem_cons_self _ _, h⟩
      · rcases List.mem_append.mp h with h2 | h2
        · simp at h2
          exact Or.inl h2
        · rcases ih h2 with h3 | ⟨l2, hl2, hcl2⟩
          · exact Or.inl h3
          · exact Or.inr ⟨l2, List.mem_cons_of_mem _ hl2, hcl2⟩

/-- The straight statement of the spec's escaping: every double quote is
doubled in place. -/
def specQuoteEscape (s : List Nat) : List Nat :=
  (s.map (fun c => if c = dquote then [dquote, dquote] else [c])).flatten

/-- The implementation's quote replacement agrees with the spec's
character-wise doubling. -/
theorem escapeQuotes_eq_spec : ∀ (s : List Nat), escapeQuotes s = specQuoteEscape s := by
  intro s
  induction s with
  | nil => rfl
  | cons x xs ih =>
    rw [escapeQuotes]
    by_cases hx : x = dquote
    · rw [if_pos hx]
      simp [specQuoteEscape, hx, ih]
    · rw [if_neg hx]
      simp [specQuoteEscape, hx]
      exact ih

/-- C10 (amended): when no column name and no string cell contains a
newline, the CSV text splits at newlines into exactly the header line (the
column names joined by commas) followed by one rendered line per data row;
and unconditionally, every string cell containing a comma or a double quote
is emitted wrapped in double quotes with each embedded double quote
doubled. -/
theorem downloadAsCSV_spec (data : List (List Nat → CellValue))
    (columns : List (List Nat))
    (hcols : ∀ col ∈ columns, nl ∉ col)
    (hcells : ∀ row ∈ data, ∀ col ∈ columns, cellNlFree (row col)) :
    (downloadAsCSV data columns).splitOn nl =
      ([comma].intercalate columns) :: data.map (csvLine columns) ∧
    ∀ s : List Nat, comma ∈ s ∨ dquote ∈ s →
      csvCell (.str s) = dquote :: (specQuoteEscape s ++ [dquote]) := by
  constructor
  · unfold downloadAsCSV
    apply List.splitOn_intercalate
    · intro l hl
      rcases List.mem_cons.mp hl with h | h
      · subst h
        intro hmem
        rcases mem_intercalate_single hmem with h2 | ⟨col, hcol, hc⟩
        · exact absurd h2 (by decide)
        · exact hcols col hcol hc
      · rcases List.mem_map.mp h with ⟨row, hrow, rfl⟩
        intro hmem
        unfold csvLine at hmem
        rcases mem_intercalate_single hmem with h2 | ⟨cell, hcell, hc⟩
        · exact absurd h2 (by decide)
        · rcases List.mem_map.mp hcell with ⟨col, hcol, rfl⟩
          exact csvCell_no_nl (hcells row hrow col hcol) hc
    · simp
  · intro s hs
    rw [csvCell, if_pos hs, escapeQuotes_eq_spec]

/-- C10 counterexample: a single data row whose cell is the string
`x\ny` (no comma, no quote, hence unquoted) produces three physical lines,
not the claimed one header line plus one line for the single row. -/
theorem downloadAsCSV_newline_breaks_lines :
    ((downloadAsCSV [fun _ => CellValue.str [120, 10, 121]] [[97]]).splitOn nl).length
      = 3 ∧ (3 : Nat) ≠ 1 + 1 := by
  exact ⟨by decide, by decide⟩

/-- C10 witness: the amended statement on concrete newline-free data. -/
theorem downloadAsCSV_spec_witness :
    (downloadAsCSV [fun _ => CellValue.str [104, 105]] [[97]]).splitOn nl =
      ([comma].intercalate [[97]]) ::
        ([fun _ => CellValue.str [104, 105]].map (csvLine [[97]])) :=
  (downloadAsCSV_spec [fun _ => CellValue.str [104, 105]] [[97]]
    (by decide) (by decide)).1

end AiDataAnalyst
